import Mathlib

/-!
# Verification of the chat server's registry and command semantics

Shallow embedding of `src/server.py` (class `ChatServer`).  Strings are
modelled as `List Char`; connection handles (sockets) as natural-number
connection ids; the Python dictionaries `self._clients` and `self._groups`
as association lists with unique keys (Python dicts preserve insertion
order and append new keys at the end, which the embedding mirrors);
Python `set` values as duplicate-free lists with set-like operations
(`add` inserts only when absent, `remove`/`discard` filter the element
out).  Character classification (`str.isalnum`, `str.lower`,
`str.strip`, `str.split`) is modelled on the ASCII fragment that the
protocol traffics in.  Each server method that sends lines is embedded
as a pure function returning the new state together with the list of
`(connection, line)` writes it performs, in program order.
-/

namespace Chat

/-- Strings of the model: Python `str` as a list of characters. -/
abbrev Str := List Char

/-- Connection handle (socket) identifier. -/
abbrev ConnId := Nat

/-- One outbound line: which connection receives which text. -/
abbrev Msg := ConnId × Str

/-- Coerce a Lean string literal into the model's string type. -/
def str (s : String) : Str := s.data

/-- Server state: the Session Registry (`self._clients`, nickname to
connection handle) and the Group Registry (`self._groups`, group name to
member set). -/
structure ServerState where
  clients : List (Str × ConnId)
  groups  : List (Str × List Str)
deriving DecidableEq, Repr

/-- The state at server start: both registries empty. -/
def emptyState : ServerState := ⟨[], []⟩

/-- Association-list lookup, first matching key (Python `dict.get`). -/
def lookupA {α : Type} (k : Str) : List (Str × α) → Option α
  | [] => none
  | (k', v) :: tl => if k' = k then some v else lookupA k tl

/-- `self._clients.get(n)`. -/
def lookupClient (st : ServerState) (n : Str) : Option ConnId :=
  lookupA n st.clients

/-- `self._groups.get(g)`. -/
def lookupGroup (st : ServerState) (g : Str) : Option (List Str) :=
  lookupA g st.groups

/-- `g in self._groups`. -/
def hasGroup (st : ServerState) (g : Str) : Bool :=
  (lookupGroup st g).isSome

/-- `self._groups.get(g, set())`: member set, empty when absent. -/
def membersOf (st : ServerState) (g : Str) : List Str :=
  (lookupGroup st g).getD []

/-- Replace the value stored under key `g` (in-place dict update). -/
def setGroup (gs : List (Str × List Str)) (g : Str) (ms : List Str) :
    List (Str × List Str) :=
  gs.map fun p => if p.1 = g then (g, ms) else p

/-- `del self._groups[g]`. -/
def delGroup (gs : List (Str × List Str)) (g : Str) : List (Str × List Str) :=
  gs.filter fun p => p.1 ≠ g

/-- Python `set.add`: insert when absent, no-op when present. -/
def insertMem (n : Str) (ms : List Str) : List Str :=
  if n ∈ ms then ms else ms ++ [n]

/-- Python `set.remove` / `set.discard`: drop the element. -/
def removeMem (n : Str) (ms : List Str) : List Str :=
  ms.filter (· ≠ n)

/-! ## Character-level helpers (ASCII fragment of the Python methods) -/

/-- ASCII `str.isalnum` character test. -/
def isAlnumChar (c : Char) : Bool := c.isAlpha || c.isDigit

/-- A nickname character per the spec grammar: letter, digit or underscore. -/
def isWordChar (c : Char) : Bool := isAlnumChar c || c = '_'

/-- Python `s.isalnum()`: non-empty and every character alphanumeric. -/
def pyIsAlnum (s : Str) : Bool := !s.isEmpty && s.all isAlnumChar

/-- Python `s.replace("_", "")`. -/
def removeUnderscores (s : Str) : Str := s.filter (· ≠ '_')

/-- The nickname acceptance test of `_negotiate_name` (the negation of
`not candidate or not candidate.replace("_", "").isalnum()`). -/
def validNick (s : Str) : Bool := !s.isEmpty && pyIsAlnum (removeUnderscores s)

/-- ASCII `str.lower` on one character. -/
def pyLowerChar (c : Char) : Char :=
  if c = 'A' then 'a' else if c = 'B' then 'b' else if c = 'C' then 'c' else
  if c = 'D' then 'd' else if c = 'E' then 'e' else if c = 'F' then 'f' else
  if c = 'G' then 'g' else if c = 'H' then 'h' else if c = 'I' then 'i' else
  if c = 'J' then 'j' else if c = 'K' then 'k' else if c = 'L' then 'l' else
  if c = 'M' then 'm' else if c = 'N' then 'n' else if c = 'O' then 'o' else
  if c = 'P' then 'p' else if c = 'Q' then 'q' else if c = 'R' then 'r' else
  if c = 'S' then 's' else if c = 'T' then 't' else if c = 'U' then 'u' else
  if c = 'V' then 'v' else if c = 'W' then 'w' else if c = 'X' then 'x' else
  if c = 'Y' then 'y' else if c = 'Z' then 'z' else c

/-- Python `s.lower()`. -/
def pyLower (s : Str) : Str := s.map pyLowerChar

/-- Python whitespace for `str.strip` / `str.split` (ASCII). -/
def isPySpace (c : Char) : Bool :=
  c = ' ' || c = '\t' || c = '\n' || c = '\r' || c = '\x0b' || c = '\x0c'

/-- Python `s.strip()`: drop leading and trailing whitespace. -/
def pyStrip (s : Str) : Str :=
  ((s.dropWhile isPySpace).reverse.dropWhile isPySpace).reverse

/-- Worker for `pySplit`, accumulating the current word reversed. -/
def splitAux : Str → Str → List Str
  | [], acc => if acc = [] then [] else [acc.reverse]
  | c :: tl, acc =>
    if isPySpace c then
      if acc = [] then splitAux tl [] else acc.reverse :: splitAux tl []
    else splitAux tl (c :: acc)

/-- Python `s.split()`: whitespace-separated words, empties dropped. -/
def pySplit (s : Str) : List Str := splitAux s []

/-- Python `" ".join(ws)`. -/
def joinSpaces : List Str → Str
  | [] => []
  | [w] => w
  | w :: x :: tl => w ++ ' ' :: joinSpaces (x :: tl)

/-- Python `sep.join(ws)` for an arbitrary separator. -/
def joinSep (sep : Str) : List Str → Str
  | [] => []
  | [w] => w
  | w :: x :: tl => w ++ sep ++ joinSep sep (x :: tl)

/-- Lexicographic string order on code points (Python `<` on `str`),
used to model `sorted`. -/
def lexLe : Str → Str → Bool
  | [], _ => true
  | _ :: _, [] => false
  | a :: as, b :: bs => if a = b then lexLe as bs else decide (a < b)

/-- Insert into a `lexLe`-sorted list (used to model Python `sorted`). -/
def insertSorted (x : Str) : List Str → List Str
  | [] => [x]
  | y :: tl => if lexLe x y then x :: y :: tl else y :: insertSorted x tl

/-- Python `sorted` on a list of strings (insertion sort). -/
def sortStrs (l : List Str) : List Str := l.foldr insertSorted []

/-! ## Outbound line texts (the f-strings of `server.py`) -/

def goodbyeMsg : Str := str "Goodbye!"
def invalidNickMsg : Str :=
  str "Nickname must be alphanumeric (underscores allowed). Try again:"
def nameTakenMsg : Str := str "Name already in use. Try another:"
def helloMsg (n : Str) : Str :=
  str "Hello " ++ n ++ str "! Type /help to see commands."
def groupExistsMsg : Str := str "Group already exists."
def groupNotFoundMsg : Str := str "Group does not exist."
def notMemberMsg : Str := str "You are not a member of that group."
def mustJoinMsg : Str := str "You must join the group before sending messages."
def createdMsg (g : Str) : Str := str "Created group " ++ g ++ str " and joined it."
def joinedMsg (g : Str) : Str := str "Joined group " ++ g ++ str "."
def leftMsg (g : Str) : Str := str "Left group " ++ g ++ str "."
def notOnlineMsg (t : Str) : Str := t ++ str " is not online."
def pmMsg (s text : Str) : Str := str "[PM] " ++ s ++ str ": " ++ text
def pmEchoMsg (t text : Str) : Str := str "[PM -> " ++ t ++ str "] " ++ text
def groupLine (g s text : Str) : Str :=
  str "[Group:" ++ g ++ str "] " ++ s ++ str ": " ++ text
def selfEchoLine (g text : Str) : Str :=
  str "[Group:" ++ g ++ str "] (you): " ++ text

/-! ## The server operations -/

/-- `_send_private`: look up the target under the lock, then either the
single offline-error line to the sender, or delivery plus echo. -/
def sendPrivate (sender target text : Str) (conn : ConnId) (st : ServerState) :
    ServerState × List Msg :=
  match lookupClient st target with
  | none => (st, [(conn, notOnlineMsg target)])
  | some rc => (st, [(rc, pmMsg sender text), (conn, pmEchoMsg target text)])

/-- `_group_create`: error when the group exists, otherwise the
defaultdict inserts the group with the caller as sole member. -/
def groupCreate (name gname : Str) (conn : ConnId) (st : ServerState) :
    ServerState × List Msg :=
  if hasGroup st gname then (st, [(conn, groupExistsMsg)])
  else ({ st with groups := st.groups ++ [(gname, [name])] },
        [(conn, createdMsg gname)])

/-- `_group_join`: error when the group is absent, otherwise `set.add`. -/
def groupJoin (name gname : Str) (conn : ConnId) (st : ServerState) :
    ServerState × List Msg :=
  match lookupGroup st gname with
  | none => (st, [(conn, groupNotFoundMsg)])
  | some ms =>
    ({ st with groups := setGroup st.groups gname (insertMem name ms) },
     [(conn, joinedMsg gname)])

/-- `_group_leave`: error when absent or not a member; otherwise remove
the caller and delete the group in the same step if it became empty. -/
def groupLeave (name gname : Str) (conn : ConnId) (st : ServerState) :
    ServerState × List Msg :=
  match lookupGroup st gname with
  | none => (st, [(conn, notMemberMsg)])
  | some ms =>
    if name ∈ ms then
      let ms' := removeMem name ms
      (if ms' = [] then { st with groups := delGroup st.groups gname }
       else { st with groups := setGroup st.groups gname ms' },
       [(conn, leftMsg gname)])
    else (st, [(conn, notMemberMsg)])

/-- The point-in-time member snapshot `self._groups.get(g, set()).copy()`
taken under the lock at the start of `_group_send`. -/
def memberSnapshot (st : ServerState) (g : Str) : List Str :=
  (lookupGroup st g).getD []

/-- `_group_send`: error to the sender when not in the snapshot;
otherwise deliver to each online snapshot member except the sender
(offline members silently skipped), then the self-echo. -/
def groupSend (sender gname text : Str) (conn : ConnId) (st : ServerState) :
    ServerState × List Msg :=
  let snap := memberSnapshot st gname
  if sender ∈ snap then
    (st,
     (snap.filterMap fun mem =>
        if mem = sender then none
        else
          match lookupClient st mem with
          | some rc => some (rc, groupLine gname sender text)
          | none => none) ++ [(conn, selfEchoLine gname text)])
  else (st, [(conn, mustJoinMsg)])

/-- `_remove_client`: pop the session; when it existed, discard the
nickname from every group and delete any group left empty. -/
def removeClient (name : Str) (st : ServerState) : ServerState :=
  match lookupClient st name with
  | none => st
  | some _ =>
    { clients := st.clients.filter fun p => p.1 ≠ name,
      groups := ((st.groups.map fun p => (p.1, removeMem name p.2)).filter
        fun p => p.2 ≠ []) }

/-- `_broadcast_system`: one `[System]`-prefixed line per snapshot session. -/
def broadcastSystem (text : Str) (st : ServerState) : List Msg :=
  st.clients.map fun p => (p.2, str "[System] " ++ text)

/-- Outcome of one iteration of the `_negotiate_name` read loop. -/
inductive NegOutcome where
  | abort
  | reprompt
  | accepted (name : Str)
deriving DecidableEq, Repr

/-- One iteration of `_negotiate_name` on an input line: strip, check
the case-insensitive `/quit` abort, validate, check uniqueness, register. -/
def negotiateStep (st : ServerState) (conn : ConnId) (line : Str) :
    NegOutcome × ServerState × List Msg :=
  let c := pyStrip line
  if pyLower c = str "/quit" then (.abort, st, [(conn, goodbyeMsg)])
  else if !validNick c then (.reprompt, st, [(conn, invalidNickMsg)])
  else if (lookupClient st c).isSome then (.reprompt, st, [(conn, nameTakenMsg)])
  else (.accepted c, { st with clients := st.clients ++ [(c, conn)] },
        [(conn, helloMsg c)])

/-! ## Listing and command dispatch -/

/-- The fixed `/help` reference text (`_send_help`). -/
def helpText : Str := joinSep (str "\n")
  [str "Commands:",
   str "  /help                             Show this help message",
   str "  /list users                       Show all connected clients",
   str "  /list groups                      Show all groups with members",
   str "  /msg <user> <message>             Send a private message",
   str "  /group create <name>              Create a new group (you join automatically)",
   str "  /group join <name>                Join an existing group",
   str "  /group leave <name>               Leave a group you\x27re part of",
   str "  /group send <name> <message>      Send a message to a group you're in",
   str "  /quit                             Disconnect from the server"]

/-- `_list_users`: sorted snapshot of nicknames, one reply line. -/
def listUsers (conn : ConnId) (st : ServerState) : List Msg :=
  let names := sortStrs (st.clients.map Prod.fst)
  if names = [] then [(conn, str "No connected users.")]
  else [(conn, str "Online users (" ++ (toString names.length).data ++
         str "): " ++ joinSep (str ", ") names)]

/-- Insert into a list of group entries sorted by key. -/
def insertSortedPair (x : Str × List Str) :
    List (Str × List Str) → List (Str × List Str)
  | [] => [x]
  | y :: tl => if lexLe x.1 y.1 then x :: y :: tl else y :: insertSortedPair x tl

/-- Python `sorted(d.items())` for the group dict (keys are unique, so
sorting by key suffices). -/
def sortPairs (l : List (Str × List Str)) : List (Str × List Str) :=
  l.foldr insertSortedPair []

/-- One line of the `/list groups` report. -/
def groupEntryLine (p : Str × List Str) : Str :=
  let ml := joinSep (str ", ") (sortStrs p.2)
  p.1 ++ str ": " ++ (if ml = [] then str "(empty)" else ml)

/-- `_list_groups`: sentinel when no groups, else one line per group. -/
def listGroups (conn : ConnId) (st : ServerState) : List Msg :=
  if st.groups = [] then [(conn, str "No groups have been created.")]
  else [(conn, joinSep (str "\n") ((sortPairs st.groups).map groupEntryLine))]

/-- `_process_command`: tokenize and dispatch one command line; the
boolean is the `should_close` return value. -/
def processCommand (name : Str) (raw : Str) (conn : ConnId) (st : ServerState) :
    Bool × ServerState × List Msg :=
  match pySplit (pyStrip raw) with
  | [] => (false, st, [])
  | cmd0 :: rest =>
    let cmd := pyLower cmd0
    if cmd = str "/help" then (false, st, [(conn, helpText)])
    else if cmd = str "/list" then
      match rest with
      | [] => (false, st, [(conn, str "Usage: /list users|groups")])
      | t1 :: _ =>
        if pyLower t1 = str "users" then (false, st, listUsers conn st)
        else if pyLower t1 = str "groups" then (false, st, listGroups conn st)
        else (false, st, [(conn, str "Unknown list target. Use users or groups.")])
    else if cmd = str "/msg" then
      match rest with
      | target :: m1 :: mrest =>
        let r := sendPrivate name target (joinSpaces (m1 :: mrest)) conn st
        (false, r.1, r.2)
      | _ => (false, st, [(conn, str "Usage: /msg <nickname> <message>")])
    else if cmd = str "/group" then
      match rest with
      | action0 :: gname :: grest =>
        let action := pyLower action0
        if action = str "create" then
          let r := groupCreate name gname conn st
          (false, r.1, r.2)
        else if action = str "join" then
          let r := groupJoin name gname conn st
          (false, r.1, r.2)
        else if action = str "leave" then
          let r := groupLeave name gname conn st
          (false, r.1, r.2)
        else if action = str "send" then
          match grest with
          | [] => (false, st, [(conn, str "Usage: /group send <group_name> <message>")])
          | m1 :: mrest =>
            let r := groupSend name gname (joinSpaces (m1 :: mrest)) conn st
            (false, r.1, r.2)
        else (false, st, [(conn, str "Unknown group action (create|join|leave|send).")])
      | _ =>
        (false, st,
         [(conn, str "Usage: /group create|join|leave|send <group_name> [message]")])
    else if cmd = str "/quit" then (true, st, [(conn, str "Disconnecting. Bye!")])
    else (false, st, [(conn, str "Unknown command. Use /help to see all options.")])

/-! ## Operation sequences over the Group Registry -/

/-- The registry-mutating operations of the claims: group create, join,
leave, send and the disconnect purge. -/
inductive Op where
  | create (name gname : Str) (conn : ConnId)
  | join (name gname : Str) (conn : ConnId)
  | leave (name gname : Str) (conn : ConnId)
  | send (sender gname text : Str) (conn : ConnId)
  | purge (name : Str)
deriving DecidableEq, Repr

/-- State effect of one operation (outbound lines discarded). -/
def applyOp : Op → ServerState → ServerState
  | .create n g c, st => (groupCreate n g c st).1
  | .join n g c, st => (groupJoin n g c st).1
  | .leave n g c, st => (groupLeave n g c st).1
  | .send s g m c, st => (groupSend s g m c st).1
  | .purge n, st => removeClient n st

/-- Run a sequence of operations from a starting state. -/
def runOps (ops : List Op) (st : ServerState) : ServerState :=
  ops.foldl (fun s o => applyOp o s) st

/-- The Group Registry invariant: every group present has a non-empty
member set. -/
def GroupsWF (st : ServerState) : Prop := ∀ p ∈ st.groups, p.2 ≠ []

/-- Representation invariant of the dict encoding: group keys are
pairwise distinct (true of every Python dict). -/
def KeysNodup (st : ServerState) : Prop := (st.groups.map Prod.fst).Nodup

/-! ## Lock/write event traces

Each operation is also embedded as the sequence of lock acquisitions,
lock releases and network writes it performs, in program order, so that
the spec's lock discipline ("never held across a network write") can be
stated. -/

/-- An observable event: taking or releasing `self._lock`, or one
`_send_line` call. -/
inductive Ev where
  | acquire
  | release
  | write (conn : ConnId) (line : Str)
deriving DecidableEq, Repr

/-- The writes a trace performs while the lock depth is positive. -/
def writesUnderLock : Nat → List Ev → List Msg
  | _, [] => []
  | d, .acquire :: tl => writesUnderLock (d + 1) tl
  | d, .release :: tl => writesUnderLock (d - 1) tl
  | 0, .write _ _ :: tl => writesUnderLock 0 tl
  | d + 1, .write c m :: tl => (c, m) :: writesUnderLock (d + 1) tl

/-- Trace of `_send_private`. -/
def sendPrivateTr (sender target text : Str) (conn : ConnId) (st : ServerState) :
    List Ev :=
  match lookupClient st target with
  | none => [.acquire, .release, .write conn (notOnlineMsg target)]
  | some rc => [.acquire, .release, .write rc (pmMsg sender text),
                .write conn (pmEchoMsg target text)]

/-- Trace of `_group_create` (the error reply is sent inside `with self._lock`). -/
def groupCreateTr (name gname : Str) (conn : ConnId) (st : ServerState) : List Ev :=
  if hasGroup st gname then [.acquire, .write conn groupExistsMsg, .release]
  else [.acquire, .release, .write conn (createdMsg gname)]

/-- Trace of `_group_join` (the error reply is sent inside `with self._lock`). -/
def groupJoinTr (name gname : Str) (conn : ConnId) (st : ServerState) : List Ev :=
  if hasGroup st gname then [.acquire, .release, .write conn (joinedMsg gname)]
  else [.acquire, .write conn groupNotFoundMsg, .release]

/-- Trace of `_group_leave` (the error reply is sent inside `with self._lock`). -/
def groupLeaveTr (name gname : Str) (conn : ConnId) (st : ServerState) : List Ev :=
  if name ∈ membersOf st gname then [.acquire, .release, .write conn (leftMsg gname)]
  else [.acquire, .write conn notMemberMsg, .release]

/-- Trace of `_group_send`: snapshot under the lock, then one short
lock section per recipient lookup, all writes outside the lock. -/
def groupSendTr (sender gname text : Str) (conn : ConnId) (st : ServerState) :
    List Ev :=
  let snap := memberSnapshot st gname
  if sender ∈ snap then
    [.acquire, .release] ++
    (snap.flatMap fun mem =>
      if mem = sender then []
      else
        [.acquire, .release] ++
        (match lookupClient st mem with
         | some rc => [.write rc (groupLine gname sender text)]
         | none => [])) ++
    [.write conn (selfEchoLine gname text)]
  else [.acquire, .release, .write conn mustJoinMsg]

/-- Trace of `_list_users`. -/
def listUsersTr (conn : ConnId) (st : ServerState) : List Ev :=
  [.acquire, .release] ++ (listUsers conn st).map fun p => .write p.1 p.2

/-- Trace of `_list_groups` (the no-groups reply is sent inside the lock). -/
def listGroupsTr (conn : ConnId) (st : ServerState) : List Ev :=
  if st.groups = [] then
    [.acquire, .write conn (str "No groups have been created."), .release]
  else [.acquire, .release] ++ (listGroups conn st).map fun p => .write p.1 p.2

/-- Trace of `_broadcast_system`. -/
def broadcastTr (text : Str) (st : ServerState) : List Ev :=
  [.acquire, .release] ++ (broadcastSystem text st).map fun p => .write p.1 p.2

/-- Trace of `_remove_client` (no writes at all). -/
def removeClientTr (name : Str) (st : ServerState) : List Ev :=
  [.acquire, .release]

/-- Trace of one `_negotiate_name` loop iteration (the name-taken reply
is sent inside `with self._lock`). -/
def negotiateTr (st : ServerState) (conn : ConnId) (line : Str) : List Ev :=
  let c := pyStrip line
  if pyLower c = str "/quit" then [.write conn goodbyeMsg]
  else if !validNick c then [.write conn invalidNickMsg]
  else if (lookupClient st c).isSome then
    [.acquire, .write conn nameTakenMsg, .release]
  else [.acquire, .release, .write conn (helloMsg c)]

/-- The member-set transformation a disconnect purge predicts for one
group: remove the nickname, drop the group if that empties it. -/
def purgeLookup (n : Str) : Option (List Str) → Option (List Str)
  | none => none
  | some ms => if removeMem n ms = [] then none else some (removeMem n ms)

/-- A sample populated state used by the concrete witnesses: three
online users `A`, `B`, `C` and one group `team` with members `A`, `B`. -/
def stW : ServerState :=
  ⟨[(str "A", 0), (str "B", 1), (str "C", 2)],
   [(str "team", [str "A", str "B"])]⟩

/-! ## Basic lemmas about the registry encoding -/

theorem lookupA_mem {α : Type} {k : Str} {v : α} {l : List (Str × α)}
    (h : lookupA k l = some v) : (k, v) ∈ l := by
  induction l with
  | nil => exact absurd h (by simp [lookupA])
  | cons p tl ih =>
    obtain ⟨k', v'⟩ := p
    rw [lookupA] at h
    by_cases hk : k' = k
    · subst hk
      rw [if_pos rfl] at h
      injection h with h2
      subst h2
      exact List.Mem.head _
    · rw [if_neg hk] at h
      exact List.mem_cons_of_mem _ (ih h)

theorem lookupA_eq_none {α : Type} {k : Str} {l : List (Str × α)} :
    lookupA k l = none ↔ ∀ p ∈ l, p.1 ≠ k := by
  induction l with
  | nil => simp [lookupA]
  | cons p tl ih =>
    obtain ⟨k', v'⟩ := p
    rw [lookupA]
    by_cases hk : k' = k
    · subst hk
      rw [if_pos rfl]
      constructor
      · intro h
        exact absurd h (by simp)
      · intro h
        exact absurd rfl (h (k', v') (List.Mem.head _))
    · rw [if_neg hk, ih]
      simp only [List.mem_cons]
      constructor
      · rintro h q (rfl | hq)
        · exact hk
        · exact h q hq
      · intro h q hq
        exact h q (Or.inr hq)

theorem lookupA_append_left {α : Type} {k : Str} {l₁ l₂ : List (Str × α)}
    (h : lookupA k l₁ = none) : lookupA k (l₁ ++ l₂) = lookupA k l₂ := by
  induction l₁ with
  | nil => simp
  | cons p tl ih =>
    obtain ⟨k', v'⟩ := p
    rw [lookupA] at h
    by_cases hk : k' = k
    · rw [if_pos hk] at h
      exact absurd h (by simp)
    · rw [if_neg hk] at h
      rw [List.cons_append, lookupA, if_neg hk]
      exact ih h

theorem setGroup_eq_self_of_none {l : List (Str × List Str)} {g : Str}
    {ms : List Str} (h : ∀ p ∈ l, p.1 ≠ g) : setGroup l g ms = l := by
  induction l with
  | nil => rfl
  | cons p tl ih =>
    have h1 : p.1 ≠ g := h p (List.mem_cons_self _ _)
    have h2 := ih fun q hq => h q (List.mem_cons_of_mem _ hq)
    show (if p.1 = g then (g, ms) else p) :: setGroup tl g ms = p :: tl
    rw [if_neg h1, h2]

theorem delGroup_eq_self_of_none {l : List (Str × List Str)} {g : Str}
    (h : ∀ p ∈ l, p.1 ≠ g) : delGroup l g = l := by
  induction l with
  | nil => rfl
  | cons p tl ih =>
    have h1 : p.1 ≠ g := h p (List.mem_cons_self _ _)
    have h2 := ih fun q hq => h q (List.mem_cons_of_mem _ hq)
    simp only [delGroup] at h2 ⊢
    rw [List.filter_cons, if_pos (by simpa using h1), h2]

theorem setGroup_append {l₁ l₂ : List (Str × List Str)} {g : Str} {ms : List Str} :
    setGroup (l₁ ++ l₂) g ms = setGroup l₁ g ms ++ setGroup l₂ g ms := by
  simp [setGroup]

theorem setGroup_self {l : List (Str × List Str)} {g : Str} {ms : List Str}
    (hnd : (l.map Prod.fst).Nodup) (h : lookupA g l = some ms) :
    setGroup l g ms = l := by
  induction l with
  | nil => rfl
  | cons p tl ih =>
    obtain ⟨k', v'⟩ := p
    rw [List.map_cons, List.nodup_cons] at hnd
    rw [lookupA] at h
    by_cases hk : k' = g
    · subst hk
      rw [if_pos rfl] at h
      injection h with h2
      subst h2
      show (if k' = k' then (k', v') else (k', v')) :: setGroup tl k' v' = (k', v') :: tl
      rw [ite_self]
      congr 1
      apply setGroup_eq_self_of_none
      intro q hq hqe
      exact hnd.1 (List.mem_map.mpr ⟨q, hq, hqe⟩)
    · rw [if_neg hk] at h
      show (if k' = g then (g, ms) else (k', v')) :: setGroup tl g ms = (k', v') :: tl
      rw [if_neg hk]
      congr 1
      exact ih hnd.2 h

theorem lookupA_filter_ne {α : Type} (n m : Str) (l : List (Str × α)) :
    lookupA m (l.filter fun p => p.1 ≠ n) =
      if m = n then none else lookupA m l := by
  induction l with
  | nil => simp [lookupA]
  | cons p tl ih =>
    obtain ⟨k', v'⟩ := p
    rw [List.filter_cons]
    by_cases hkn : k' = n
    · rw [if_neg (by simp [hkn])]
      rw [ih]
      by_cases hmn : m = n
      · rw [if_pos hmn, if_pos hmn]
      · rw [if_neg hmn, if_neg hmn]
        have hk'm : k' ≠ m := by rw [hkn]; exact fun hc => hmn hc.symm
        conv_rhs => rw [lookupA]
        rw [if_neg hk'm]
    · rw [if_pos (by simp [hkn])]
      rw [lookupA]
      by_cases hkm : k' = m
      · subst hkm
        rw [if_pos rfl]
        rw [if_neg hkn]
        conv_rhs => rw [lookupA]
        rw [if_pos rfl]
      · rw [if_neg hkm, ih]
        by_cases hmn : m = n
        · rw [if_pos hmn, if_pos hmn]
        · rw [if_neg hmn, if_neg hmn]
          conv_rhs => rw [lookupA]
          rw [if_neg hkm]

/-! ## Lemmas about nickname validation -/

theorem validNick_mem_word {s : Str} (h : validNick s = true) :
    ∀ c ∈ s, isWordChar c = true := by
  intro c hc
  by_cases hu : c = '_'
  · simp [isWordChar, hu]
  · have h2 : c ∈ removeUnderscores s := by
      simp only [removeUnderscores, List.mem_filter]
      exact ⟨hc, by simpa using hu⟩
    simp only [validNick, pyIsAlnum, Bool.and_eq_true, List.all_eq_true] at h
    simp [isWordChar, h.2.2 c h2]

theorem wordChar_pyLowerChar_ne_slash {c : Char} (h : isWordChar c = true) :
    pyLowerChar c ≠ '/' := by
  by_cases h1 : c = 'A'
  · subst h1; decide
  by_cases h2 : c = 'B'
  · subst h2; decide
  by_cases h3 : c = 'C'
  · subst h3; decide
  by_cases h4 : c = 'D'
  · subst h4; decide
  by_cases h5 : c = 'E'
  · subst h5; decide
  by_cases h6 : c = 'F'
  · subst h6; decide
  by_cases h7 : c = 'G'
  · subst h7; decide
  by_cases h8 : c = 'H'
  · subst h8; decide
  by_cases h9 : c = 'I'
  · subst h9; decide
  by_cases h10 : c = 'J'
  · subst h10; decide
  by_cases h11 : c = 'K'
  · subst h11; decide
  by_cases h12 : c = 'L'
  · subst h12; decide
  by_cases h13 : c = 'M'
  · subst h13; decide
  by_cases h14 : c = 'N'
  · subst h14; decide
  by_cases h15 : c = 'O'
  · subst h15; decide
  by_cases h16 : c = 'P'
  · subst h16; decide
  by_cases h17 : c = 'Q'
  · subst h17; decide
  by_cases h18 : c = 'R'
  · subst h18; decide
  by_cases h19 : c = 'S'
  · subst h19; decide
  by_cases h20 : c = 'T'
  · subst h20; decide
  by_cases h21 : c = 'U'
  · subst h21; decide
  by_cases h22 : c = 'V'
  · subst h22; decide
  by_cases h23 : c = 'W'
  · subst h23; decide
  by_cases h24 : c = 'X'
  · subst h24; decide
  by_cases h25 : c = 'Y'
  · subst h25; decide
  by_cases h26 : c = 'Z'
  · subst h26; decide
  have hc : pyLowerChar c = c := by
    unfold pyLowerChar
    rw [if_neg h1, if_neg h2, if_neg h3, if_neg h4, if_neg h5, if_neg h6, if_neg h7, if_neg h8, if_neg h9, if_neg h10, if_neg h11, if_neg h12, if_neg h13, if_neg h14, if_neg h15, if_neg h16, if_neg h17, if_neg h18, if_neg h19, if_neg h20, if_neg h21, if_neg h22, if_neg h23, if_neg h24, if_neg h25, if_neg h26]
  rw [hc]
  intro heq
  subst heq
  exact absurd h (by decide)

theorem validNick_pyLower_ne_quit {s : Str} (h : validNick s = true) :
    pyLower s ≠ str "/quit" := by
  intro hq
  cases s with
  | nil => exact absurd h (by decide)
  | cons c tl =>
    have hc : some (pyLowerChar c) = some '/' := congrArg List.head? hq
    injection hc with hc
    exact wordChar_pyLowerChar_ne_slash
      (validNick_mem_word h c (List.Mem.head _)) hc

/-! ## Unfolding equations for the operations -/

theorem groupCreate_present {st : ServerState} {g n : Str} {c : ConnId}
    (hg : hasGroup st g = true) :
    groupCreate n g c st = (st, [(c, groupExistsMsg)]) := by
  unfold groupCreate
  rw [if_pos hg]

theorem groupCreate_absent {st : ServerState} {g n : Str} {c : ConnId}
    (hg : hasGroup st g = false) :
    groupCreate n g c st =
      ({ st with groups := st.groups ++ [(g, [n])] }, [(c, createdMsg g)]) := by
  unfold groupCreate
  rw [if_neg (by rw [hg]; simp)]

theorem groupJoin_absent {st : ServerState} {g n : Str} {c : ConnId}
    (hg : lookupGroup st g = none) :
    groupJoin n g c st = (st, [(c, groupNotFoundMsg)]) := by
  simp only [groupJoin, hg]

theorem groupJoin_present {st : ServerState} {g n : Str} {c : ConnId}
    {ms : List Str} (hg : lookupGroup st g = some ms) :
    groupJoin n g c st =
      ({ st with groups := setGroup st.groups g (insertMem n ms) },
       [(c, joinedMsg g)]) := by
  simp only [groupJoin, hg]

theorem groupLeave_absent {st : ServerState} {g n : Str} {c : ConnId}
    (hg : lookupGroup st g = none) :
    groupLeave n g c st = (st, [(c, notMemberMsg)]) := by
  simp only [groupLeave, hg]

theorem groupLeave_nonmember {st : ServerState} {g n : Str} {c : ConnId}
    {ms : List Str} (hg : lookupGroup st g = some ms) (hm : n ∉ ms) :
    groupLeave n g c st = (st, [(c, notMemberMsg)]) := by
  simp only [groupLeave, hg]
  rw [if_neg hm]

theorem groupLeave_member_last {st : ServerState} {g n : Str} {c : ConnId}
    {ms : List Str} (hg : lookupGroup st g = some ms) (hm : n ∈ ms)
    (he : removeMem n ms = []) :
    groupLeave n g c st =
      ({ st with groups := delGroup st.groups g }, [(c, leftMsg g)]) := by
  simp only [groupLeave, hg]
  rw [if_pos hm, he, if_pos rfl]

theorem groupLeave_member_stay {st : ServerState} {g n : Str} {c : ConnId}
    {ms : List Str} (hg : lookupGroup st g = some ms) (hm : n ∈ ms)
    (he : removeMem n ms ≠ []) :
    groupLeave n g c st =
      ({ st with groups := setGroup st.groups g (removeMem n ms) },
       [(c, leftMsg g)]) := by
  simp only [groupLeave, hg]
  rw [if_pos hm, if_neg he]

theorem groupSend_fst {st : ServerState} {s g m : Str} {c : ConnId} :
    (groupSend s g m c st).1 = st := by
  simp only [groupSend]
  by_cases hs : s ∈ memberSnapshot st g
  · rw [if_pos hs]
  · rw [if_neg hs]

theorem removeClient_absent {st : ServerState} {n : Str}
    (h : lookupClient st n = none) : removeClient n st = st := by
  simp only [removeClient, h]

theorem removeClient_present {st : ServerState} {n : Str} {cid : ConnId}
    (h : lookupClient st n = some cid) :
    removeClient n st =
      { clients := st.clients.filter fun p => p.1 ≠ n,
        groups := ((st.groups.map fun p => (p.1, removeMem n p.2)).filter
          fun p => p.2 ≠ []) } := by
  simp only [removeClient, h]

theorem lookupA_purge {gs : List (Str × List Str)} {g n : Str}
    (hnd : (gs.map Prod.fst).Nodup) :
    lookupA g ((gs.map fun p => (p.1, removeMem n p.2)).filter
        fun p => p.2 ≠ []) = purgeLookup n (lookupA g gs) := by
  induction gs with
  | nil => rfl
  | cons p tl ih =>
    obtain ⟨k, ms⟩ := p
    rw [List.map_cons, List.nodup_cons] at hnd
    rw [List.map_cons, List.filter_cons]
    by_cases hk : k = g
    · subst hk
      have htl : lookupA k tl = none :=
        lookupA_eq_none.mpr fun q hq hqe => hnd.1 (List.mem_map.mpr ⟨q, hq, hqe⟩)
      conv_rhs => rw [lookupA, if_pos rfl]
      by_cases he : removeMem n ms = []
      · rw [if_neg (by simp [he])]
        rw [ih hnd.2, htl]
        simp [purgeLookup, he]
      · rw [if_pos (by simp [he])]
        rw [lookupA, if_pos rfl]
        simp [purgeLookup, he]
    · by_cases he : removeMem n ms = []
      · rw [if_neg (by simp [he])]
        rw [ih hnd.2]
        conv_rhs => rw [lookupA, if_neg hk]
      · rw [if_pos (by simp [he])]
        rw [lookupA, if_neg hk, ih hnd.2]
        conv_rhs => rw [lookupA, if_neg hk]

/-! ## The Group Registry invariant -/

theorem applyOp_groupsWF {op : Op} {st : ServerState} (h : GroupsWF st) :
    GroupsWF (applyOp op st) := by
  cases op with
  | create n g c =>
    show GroupsWF (groupCreate n g c st).1
    cases hg : hasGroup st g
    · rw [groupCreate_absent hg]
      intro p hp
      rcases List.mem_append.mp hp with hp | hp
      · exact h p hp
      · have : p = (g, [n]) := by simpa using hp
        rw [this]
        simp
    · rw [groupCreate_present hg]
      exact h
  | join n g c =>
    show GroupsWF (groupJoin n g c st).1
    cases hg : lookupGroup st g with
    | none =>
      rw [groupJoin_absent hg]
      exact h
    | some ms =>
      rw [groupJoin_present hg]
      intro p hp
      obtain ⟨q, hq, hqe⟩ := List.mem_map.mp hp
      by_cases hqg : q.1 = g
      · rw [if_pos hqg] at hqe
        rw [← hqe]
        have hms : ms ≠ [] := h (g, ms) (lookupA_mem hg)
        simp only [insertMem]
        by_cases hn : n ∈ ms
        · rw [if_pos hn]
          exact hms
        · rw [if_neg hn]
          simp
      · rw [if_neg hqg] at hqe
        rw [← hqe]
        exact h q hq
  | leave n g c =>
    show GroupsWF (groupLeave n g c st).1
    cases hg : lookupGroup st g with
    | none =>
      rw [groupLeave_absent hg]
      exact h
    | some ms =>
      by_cases hm : n ∈ ms
      · by_cases he : removeMem n ms = []
        · rw [groupLeave_member_last hg hm he]
          intro p hp
          exact h p (List.mem_of_mem_filter hp)
        · rw [groupLeave_member_stay hg hm he]
          intro p hp
          obtain ⟨q, hq, hqe⟩ := List.mem_map.mp hp
          by_cases hqg : q.1 = g
          · rw [if_pos hqg] at hqe
            rw [← hqe]
            exact he
          · rw [if_neg hqg] at hqe
            rw [← hqe]
            exact h q hq
      · rw [groupLeave_nonmember hg hm]
        exact h
  | send s g m c =>
    show GroupsWF (groupSend s g m c st).1
    rw [groupSend_fst]
    exact h
  | purge n =>
    show GroupsWF (removeClient n st)
    cases hs : lookupClient st n with
    | none =>
      rw [removeClient_absent hs]
      exact h
    | some cid =>
      rw [removeClient_present hs]
      intro p hp
      have := List.of_mem_filter hp
      simpa using this

/-- C2: starting from the empty registry, any sequence of group create,
join, leave, send and disconnect-purge operations leaves every group in
the Group Registry with a non-empty member set. -/
theorem runOps_groupsWF (ops : List Op) : GroupsWF (runOps ops emptyState) := by
  have main : ∀ st, GroupsWF st → GroupsWF (runOps ops st) := by
    induction ops with
    | nil =>
      intro st h
      exact h
    | cons op tl ih =>
      intro st h
      show GroupsWF (runOps tl (applyOp op st))
      exact ih _ (applyOp_groupsWF h)
  exact main emptyState (by intro p hp; simp [emptyState] at hp)

/-- Witness for C2: a concrete operation sequence ending in a registry
whose single group has a non-empty member set. -/
theorem runOps_groupsWF_witness :
    GroupsWF (runOps
      [Op.create (str "A") (str "team") 0, Op.join (str "B") (str "team") 1]
      emptyState) :=
  runOps_groupsWF _

/-- Claim C4: every state-conflict error is atomic and private.  Group
create on an existing group, group join on a missing group, group leave
by a non-member (or on a missing group), and registration of a nickname
already present each leave both registries exactly as they were and
produce exactly one error line to the requesting sender and no line to
any other connection. -/
theorem conflict_error_spec (st : ServerState) (n g line : Str) (conn : ConnId) :
    (hasGroup st g = true →
      groupCreate n g conn st = (st, [(conn, groupExistsMsg)])) ∧
    (hasGroup st g = false →
      groupJoin n g conn st = (st, [(conn, groupNotFoundMsg)])) ∧
    (n ∉ membersOf st g →
      groupLeave n g conn st = (st, [(conn, notMemberMsg)])) ∧
    (validNick (pyStrip line) = true →
      (lookupClient st (pyStrip line)).isSome = true →
      negotiateStep st conn line = (.reprompt, st, [(conn, nameTakenMsg)])) := by
  refine ⟨fun h => groupCreate_present h, ?_, ?_, ?_⟩
  · intro h
    cases hlk : lookupGroup st g with
    | none => exact groupJoin_absent hlk
    | some ms =>
      unfold hasGroup at h
      rw [hlk] at h
      simp at h
  · intro h
    cases hlk : lookupGroup st g with
    | none => exact groupLeave_absent hlk
    | some ms =>
      apply groupLeave_nonmember hlk
      intro hm
      apply h
      unfold membersOf
      rw [hlk]
      exact hm
  · intro hv hs
    simp only [negotiateStep]
    rw [if_neg (validNick_pyLower_ne_quit hv)]
    rw [if_neg (by rw [hv]; simp)]
    rw [if_pos hs]

theorem conflict_error_spec_witness :
    groupCreate (str "C") (str "team") 2 stW = (stW, [(2, groupExistsMsg)]) :=
  (conflict_error_spec stW (str "C") (str "team") (str "x") 2).1 (by decide)

/-- Claim C5: when a session ends, the cleanup removes the nickname
from the Session Registry, transforms every group exactly as a `leave`
would (membership removed, a group emptied by the removal deleted), and
leaves all other sessions and the memberships of groups the nickname
did not belong to unchanged.  The hypotheses are the dict-encoding
invariant (distinct group keys) and the registry invariant of C2
(non-empty member sets). -/
theorem removeClient_spec (st : ServerState) (n : Str) (cid : ConnId)
    (hs : lookupClient st n = some cid) (hnd : KeysNodup st)
    (hwf : GroupsWF st) :
    (∀ m, lookupClient (removeClient n st) m =
       if m = n then none else lookupClient st m) ∧
    (∀ g, lookupGroup (removeClient n st) g =
       purgeLookup n (lookupGroup st g)) ∧
    (∀ g ms, lookupGroup st g = some ms → n ∉ ms →
       lookupGroup (removeClient n st) g = some ms) := by
  refine ⟨?_, ?_, ?_⟩
  · intro m
    rw [removeClient_present hs]
    exact lookupA_filter_ne n m st.clients
  · intro g
    rw [removeClient_present hs]
    exact lookupA_purge hnd
  · intro g ms hg hnm
    rw [removeClient_present hs]
    show lookupA g ((st.groups.map fun p => (p.1, removeMem n p.2)).filter
        fun p => p.2 ≠ []) = some ms
    rw [lookupA_purge hnd, show lookupA g st.groups = some ms from hg]
    have h1 : removeMem n ms = ms :=
      List.filter_eq_self.mpr fun a ha => by
        simp only [decide_eq_true_eq]
        exact fun he => hnm (he ▸ ha)
    have hms : ms ≠ [] := hwf (g, ms) (lookupA_mem hg)
    simp [purgeLookup, h1, hms]

theorem removeClient_spec_witness :
    lookupGroup (removeClient (str "A") stW) (str "team") =
      purgeLookup (str "A") (lookupGroup stW (str "team")) :=
  (removeClient_spec stW (str "A") 0 (by decide)
    (by unfold KeysNodup; decide) (by unfold GroupsWF; decide)).2.1 (str "team")

/-- Claim C7: group join is idempotent.  For an existing group and a
nickname already in its member set, a join leaves both registries
exactly unchanged and reports success, so a second join does the same;
both attempts reply with the success confirmation. -/
theorem groupJoin_idem (st : ServerState) (n g : Str) (conn : ConnId)
    (ms : List Str) (hnd : KeysNodup st) (hg : lookupGroup st g = some ms)
    (hm : n ∈ ms) :
    groupJoin n g conn st = (st, [(conn, joinedMsg g)]) ∧
    groupJoin n g conn (groupJoin n g conn st).1 =
      (st, [(conn, joinedMsg g)]) := by
  have h1 : groupJoin n g conn st = (st, [(conn, joinedMsg g)]) := by
    rw [groupJoin_present hg]
    unfold insertMem
    rw [if_pos hm, setGroup_self hnd hg]
  refine ⟨h1, ?_⟩
  rw [h1]
  exact h1

theorem groupJoin_idem_witness :
    groupJoin (str "A") (str "team") 0 stW =
      (stW, [(0, joinedMsg (str "team"))]) :=
  (groupJoin_idem stW (str "A") (str "team") 0 [str "A", str "B"]
    (by unfold KeysNodup; decide) (by decide) (by decide)).1

theorem delGroup_append {l₁ l₂ : List (Str × List Str)} {g : Str} :
    delGroup (l₁ ++ l₂) g = delGroup l₁ g ++ delGroup l₂ g := by
  simp [delGroup]

/-- Claim C6: for a group name absent from the registry and distinct
nicknames A and B, after create(G, A) the member set of G is exactly
\x7bA\x7d; after join(G, B) it is exactly \x7bA, B\x7d; and after
both leave, G is absent from the registry. -/
theorem group_lifecycle (st : ServerState) (G A B : Str) (cA cB : ConnId)
    (habs : lookupGroup st G = none) (hAB : A ≠ B) :
    membersOf (groupCreate A G cA st).1 G = [A] ∧
    (∀ x, x ∈ membersOf (groupJoin B G cB (groupCreate A G cA st).1).1 G ↔
      (x = A ∨ x = B)) ∧
    lookupGroup (groupLeave B G cB (groupLeave A G cA
      (groupJoin B G cB (groupCreate A G cA st).1).1).1).1 G = none := by
  have hkeys : ∀ p ∈ st.groups, p.1 ≠ G := lookupA_eq_none.mp habs
  have hBA : B ∉ [A] := by
    intro hc
    have hc2 : B = A := by simpa using hc
    exact hAB hc2.symm
  have hg0 : hasGroup st G = false := by
    unfold hasGroup
    rw [habs]
    rfl
  have hins : insertMem B [A] = [A, B] := by
    unfold insertMem
    rw [if_neg hBA]
    rfl
  have hrmA : removeMem A [A, B] = [B] := by
    show List.filter (fun c => c ≠ A) [A, B] = [B]
    rw [List.filter_cons, List.filter_cons, if_neg (by simp),
      if_pos (by simpa using Ne.symm hAB)]
    rfl
  have hrmB : removeMem B [B] = [] := by
    show List.filter (fun c => c ≠ B) [B] = []
    rw [List.filter_cons, if_neg (by simp)]
    rfl
  have hx1 : setGroup (st.groups ++ [(G, [A])]) G [A, B] =
      st.groups ++ [(G, [A, B])] := by
    rw [setGroup_append, setGroup_eq_self_of_none hkeys]
    congr 1
    show [if G = G then (G, [A, B]) else (G, [A])] = [(G, [A, B])]
    rw [if_pos rfl]
  have hx2 : setGroup (st.groups ++ [(G, [A, B])]) G [B] =
      st.groups ++ [(G, [B])] := by
    rw [setGroup_append, setGroup_eq_self_of_none hkeys]
    congr 1
    show [if G = G then (G, [B]) else (G, [A, B])] = [(G, [B])]
    rw [if_pos rfl]
  have hx3 : delGroup (st.groups ++ [(G, [B])]) G = st.groups := by
    rw [delGroup_append, delGroup_eq_self_of_none hkeys]
    show st.groups ++ List.filter (fun p => p.1 ≠ G) [(G, [B])] = st.groups
    rw [List.filter_cons, if_neg (by simp)]
    simp
  have e1 : (groupCreate A G cA st).1 =
      { st with groups := st.groups ++ [(G, [A])] } := by
    rw [groupCreate_absent hg0]
  have l1 : lookupGroup { st with groups := st.groups ++ [(G, [A])] } G =
      some [A] := by
    show lookupA G (st.groups ++ [(G, [A])]) = some [A]
    rw [lookupA_append_left habs]
    show (if G = G then some [A] else lookupA G []) = some [A]
    rw [if_pos rfl]
  have e2 : (groupJoin B G cB { st with groups := st.groups ++ [(G, [A])] }).1 =
      { st with groups := st.groups ++ [(G, [A, B])] } := by
    rw [groupJoin_present l1, hins, hx1]
  have l2 : lookupGroup { st with groups := st.groups ++ [(G, [A, B])] } G =
      some [A, B] := by
    show lookupA G (st.groups ++ [(G, [A, B])]) = some [A, B]
    rw [lookupA_append_left habs]
    show (if G = G then some [A, B] else lookupA G []) = some [A, B]
    rw [if_pos rfl]
  have hAmem : A ∈ ([A, B] : List Str) := by simp
  have e3 : (groupLeave A G cA
      { st with groups := st.groups ++ [(G, [A, B])] }).1 =
      { st with groups := st.groups ++ [(G, [B])] } := by
    rw [groupLeave_member_stay l2 hAmem (by rw [hrmA]; simp), hrmA, hx2]
  have l3 : lookupGroup { st with groups := st.groups ++ [(G, [B])] } G =
      some [B] := by
    show lookupA G (st.groups ++ [(G, [B])]) = some [B]
    rw [lookupA_append_left habs]
    show (if G = G then some [B] else lookupA G []) = some [B]
    rw [if_pos rfl]
  have hBmem : B ∈ ([B] : List Str) := by simp
  have e4 : (groupLeave B G cB
      { st with groups := st.groups ++ [(G, [B])] }).1 =
      { st with groups := st.groups } := by
    rw [groupLeave_member_last l3 hBmem hrmB, hx3]
  refine ⟨?_, ?_, ?_⟩
  · rw [e1]
    unfold membersOf
    rw [l1]
    rfl
  · intro x
    rw [e1, e2]
    unfold membersOf
    rw [l2]
    simp
  · rw [e1, e2, e3, e4]
    exact habs

theorem group_lifecycle_witness :
    lookupGroup (groupLeave (str "B") (str "g") 1 (groupLeave (str "A") (str "g") 0
      (groupJoin (str "B") (str "g") 1 (groupCreate (str "A") (str "g") 0
        emptyState).1).1).1).1 (str "g") = none :=
  (group_lifecycle emptyState (str "g") (str "A") (str "B") 0 1 (by decide)
    (by decide)).2.2

/-! ## Nickname grammar: the all-underscore corner -/

/-- Claim C3 counterexample: the string consisting of one underscore
is made exclusively of nickname-grammar characters (letter, digit or
underscore), yet `_negotiate_name` rejects it and re-prompts, because
`"_".replace("_", "").isalnum()` is `False` in Python. -/
theorem validNick_underscore_cex :
    (∀ c ∈ str "_", isWordChar c = true) ∧ validNick (str "_") = false ∧
    negotiateStep emptyState 0 (str "_") =
      (.reprompt, emptyState, [(0, invalidNickMsg)]) :=
  ⟨by decide, by decide, by decide⟩

/-- Claim C3 (amended): nickname validation accepts exactly the
strings made of letters, digits and underscores that contain at least
one non-underscore character (so the empty string, all-underscore
strings, and strings with any other character are rejected); a rejected
candidate that is not the /quit abort token re-prompts and leaves the
Session Registry unchanged. -/
theorem validNick_spec (s line : Str) (st : ServerState) (conn : ConnId) :
    (validNick s = true ↔
      ((∀ c ∈ s, isWordChar c = true) ∧ ∃ c ∈ s, c ≠ '_')) ∧
    (validNick (pyStrip line) = false → pyLower (pyStrip line) ≠ str "/quit" →
      negotiateStep st conn line = (.reprompt, st, [(conn, invalidNickMsg)])) := by
  constructor
  · constructor
    · intro h
      refine ⟨validNick_mem_word h, ?_⟩
      simp only [validNick, pyIsAlnum, Bool.and_eq_true, List.all_eq_true] at h
      obtain ⟨h1, h2, h3⟩ := h
      cases hrm : removeUnderscores s with
      | nil =>
        rw [hrm] at h2
        simp at h2
      | cons c tl =>
        have hc : c ∈ removeUnderscores s := by
          rw [hrm]
          exact List.Mem.head _
        have hm := List.mem_filter.mp hc
        exact ⟨c, hm.1, by simpa using hm.2⟩
    · rintro ⟨hall, c, hc, hcu⟩
      simp only [validNick, pyIsAlnum, Bool.and_eq_true, List.all_eq_true]
      have hcr : c ∈ removeUnderscores s :=
        List.mem_filter.mpr ⟨hc, by simpa using hcu⟩
      refine ⟨?_, ?_, ?_⟩
      · cases s with
        | nil => exact absurd hc (by simp)
        | cons a tl => rfl
      · cases hrm : removeUnderscores s with
        | nil =>
          rw [hrm] at hcr
          exact absurd hcr (by simp)
        | cons a tl => rfl
      · intro a ha
        have hmem := List.mem_filter.mp ha
        have hw := hall a hmem.1
        have hau : a ≠ '_' := by simpa using hmem.2
        unfold isWordChar at hw
        cases (Bool.or_eq_true _ _).mp hw with
        | inl hx => exact hx
        | inr hx => exact absurd (by simpa using hx) hau
  · intro hv hq
    simp only [negotiateStep]
    rw [if_neg hq]
    rw [if_pos (by rw [hv]; rfl)]

theorem validNick_spec_witness :
    negotiateStep emptyState 0 (str "ab!") =
      (.reprompt, emptyState, [(0, invalidNickMsg)]) :=
  (validNick_spec (str "x") (str "ab!") emptyState 0).2 (by decide) (by decide)

/-! ## Slash-prefixed lines during negotiation -/

theorem dropWhile_append_singleton {p : Char → Bool} {c : Char}
    (hc : p c = false) (l : List Char) :
    ∃ z, List.dropWhile p (l ++ [c]) = z ++ [c] := by
  induction l with
  | nil =>
    refine ⟨[], ?_⟩
    show List.dropWhile p [c] = [c]
    rw [List.dropWhile_cons, hc, if_neg Bool.false_ne_true]
  | cons a tl ih =>
    rw [List.cons_append, List.dropWhile_cons]
    by_cases ha : p a = true
    · rw [ha]
      simpa using ih
    · rw [Bool.not_eq_true] at ha
      rw [ha, if_neg Bool.false_ne_true]
      exact ⟨a :: tl, by rw [List.cons_append]⟩

theorem pyStrip_slash_head {line : Str} (h : line.head? = some '/') :
    ∃ z, pyStrip line = '/' :: z := by
  cases line with
  | nil => simp at h
  | cons c tl =>
    rw [List.head?_cons] at h
    injection h with h
    subst h
    unfold pyStrip
    rw [List.dropWhile_cons, show isPySpace '/' = false from by decide,
      if_neg Bool.false_ne_true]
    rw [List.reverse_cons]
    obtain ⟨z, hz⟩ :=
      dropWhile_append_singleton (show isPySpace '/' = false from by decide)
        tl.reverse
    refine ⟨z.reverse, ?_⟩
    rw [hz, List.reverse_append]
    rfl

theorem validNick_slash_false {z : Str} : validNick ('/' :: z) = false := by
  have h : removeUnderscores ('/' :: z) = '/' :: removeUnderscores z := by
    unfold removeUnderscores
    rw [List.filter_cons, if_pos (by decide)]
  unfold validNick pyIsAlnum
  rw [h]
  simp [List.all_cons, show isAlnumChar '/' = false from by decide]

/-- Claim C10: during nickname negotiation a line whose stripped form
case-insensitively equals /quit aborts with the Goodbye reply and no
session created; any other line beginning with a slash fails validation
and re-prompts with the state unchanged; consequently no accepted
nickname ever starts with a slash. -/
theorem negotiate_slash_spec (st : ServerState) (conn : ConnId) (line : Str) :
    (pyLower (pyStrip line) = str "/quit" →
      negotiateStep st conn line = (.abort, st, [(conn, goodbyeMsg)])) ∧
    (line.head? = some '/' → pyLower (pyStrip line) ≠ str "/quit" →
      negotiateStep st conn line = (.reprompt, st, [(conn, invalidNickMsg)])) ∧
    (∀ nm st' out, negotiateStep st conn line = (.accepted nm, st', out) →
      nm.head? ≠ some '/') := by
  refine ⟨?_, ?_, ?_⟩
  · intro h
    simp only [negotiateStep]
    rw [if_pos h]
  · intro hh hq
    obtain ⟨z, hz⟩ := pyStrip_slash_head hh
    simp only [negotiateStep]
    rw [if_neg hq]
    rw [if_pos (by rw [hz, validNick_slash_false]; rfl)]
  · intro nm st' out h
    simp only [negotiateStep] at h
    by_cases h1 : pyLower (pyStrip line) = str "/quit"
    · rw [if_pos h1] at h
      exact absurd h (by simp)
    · rw [if_neg h1] at h
      by_cases h2 : validNick (pyStrip line) = true
      · rw [if_neg (by rw [h2]; simp)] at h
        by_cases h3 : (lookupClient st (pyStrip line)).isSome = true
        · rw [if_pos h3] at h
          exact absurd h (by simp)
        · rw [if_neg h3] at h
          have hn : pyStrip line = nm := by
            have h4 := congrArg Prod.fst h
            simpa using h4
          intro hcontr
          rw [← hn] at hcontr
          cases hps : pyStrip line with
          | nil =>
            rw [hps] at hcontr
            simp at hcontr
          | cons c z =>
            rw [hps, List.head?_cons] at hcontr
            injection hcontr with hcc
            rw [hps, hcc, validNick_slash_false] at h2
            simp at h2
      · rw [Bool.not_eq_true] at h2
        rw [if_pos (by rw [h2]; rfl)] at h
        exact absurd h (by simp)

theorem negotiate_slash_spec_witness :
    negotiateStep emptyState 0 (str " /QUIT ") =
      (.abort, emptyState, [(0, goodbyeMsg)]) :=
  (negotiate_slash_spec emptyState 0 (str " /QUIT ")).1 (by decide)

/-! ## Lock discipline -/

theorem writesUnderLock_aqrel (l : List Ev) :
    writesUnderLock 0 (.acquire :: .release :: l) = writesUnderLock 0 l := rfl

theorem writesUnderLock_wr (c : ConnId) (m : Str) (l : List Ev) :
    writesUnderLock 0 (.write c m :: l) = writesUnderLock 0 l := rfl

theorem writesUnderLock_writes (ws : List Msg) :
    writesUnderLock 0 (ws.map fun p => Ev.write p.1 p.2) = [] := by
  induction ws with
  | nil => rfl
  | cons w tl ih =>
    rw [List.map_cons, writesUnderLock_wr]
    exact ih

theorem writesUnderLock_groupSend_aux (gname sender text : Str)
    (st : ServerState) (snap : List Str) (rest : List Ev) :
    writesUnderLock 0 ((snap.flatMap fun mem =>
      if mem = sender then []
      else [Ev.acquire, Ev.release] ++
        (match lookupClient st mem with
         | some rc => [Ev.write rc (groupLine gname sender text)]
         | none => [])) ++ rest) = writesUnderLock 0 rest := by
  induction snap with
  | nil => rfl
  | cons m tl ih =>
    simp only [List.flatMap_cons]
    by_cases hm : m = sender
    · rw [if_pos hm, List.nil_append]
      exact ih
    · rw [if_neg hm]
      cases hlk : lookupClient st m with
      | some rc =>
        simp only [hlk, List.append_assoc, List.cons_append, List.nil_append]
        rw [writesUnderLock_aqrel, writesUnderLock_wr]
        exact ih
      | none =>
        simp only [hlk, List.append_assoc, List.cons_append, List.nil_append]
        rw [writesUnderLock_aqrel]
        exact ih

/-- Claim C9 counterexample: with nickname A already registered, the
negotiation step for the line A performs its name-taken error write
while the registry lock is held, so the claim that no write ever occurs
inside the critical section is false of the code. -/
theorem lock_write_cex :
    writesUnderLock 0 (negotiateTr stW 5 (str "A")) = [(5, nameTakenMsg)] := by
  decide

/-- Claim C9 (amended): message deliveries, self-echoes, broadcasts,
success confirmations, user listings, non-empty group listings and the
remove-client purge perform all their writes outside the lock; the only
writes performed while the lock is held are the single conflict-error
replies (name taken, group exists, group not found, not a member) and
the empty-registry group-listing reply. -/
theorem lock_write_discipline (st : ServerState) (n g s t text line : Str)
    (conn : ConnId) :
    writesUnderLock 0 (sendPrivateTr s t text conn st) = [] ∧
    writesUnderLock 0 (groupSendTr s g text conn st) = [] ∧
    writesUnderLock 0 (listUsersTr conn st) = [] ∧
    writesUnderLock 0 (broadcastTr text st) = [] ∧
    writesUnderLock 0 (removeClientTr n st) = [] ∧
    writesUnderLock 0 (groupCreateTr n g conn st) =
      (if hasGroup st g then [(conn, groupExistsMsg)] else []) ∧
    writesUnderLock 0 (groupJoinTr n g conn st) =
      (if hasGroup st g then [] else [(conn, groupNotFoundMsg)]) ∧
    writesUnderLock 0 (groupLeaveTr n g conn st) =
      (if n ∈ membersOf st g then [] else [(conn, notMemberMsg)]) ∧
    writesUnderLock 0 (listGroupsTr conn st) =
      (if st.groups = [] then [(conn, str "No groups have been created.")]
       else []) ∧
    writesUnderLock 0 (negotiateTr st conn line) =
      (if pyLower (pyStrip line) ≠ str "/quit" ∧
          validNick (pyStrip line) = true ∧
          (lookupClient st (pyStrip line)).isSome = true
       then [(conn, nameTakenMsg)] else []) := by
  refine ⟨?_, ?_, ?_, ?_, ?_, ?_, ?_, ?_, ?_, ?_⟩
  · unfold sendPrivateTr
    cases lookupClient st t with
    | none => rfl
    | some rc => rfl
  · simp only [groupSendTr]
    by_cases hs : s ∈ memberSnapshot st g
    · rw [if_pos hs]
      show writesUnderLock 0 (Ev.acquire :: Ev.release ::
        ((memberSnapshot st g).flatMap _ ++ [Ev.write conn (selfEchoLine g text)])) = []
      rw [writesUnderLock_aqrel, writesUnderLock_groupSend_aux]
      rfl
    · rw [if_neg hs]
      rfl
  · unfold listUsersTr
    show writesUnderLock 0 (Ev.acquire :: Ev.release ::
      (listUsers conn st).map fun p => Ev.write p.1 p.2) = []
    rw [writesUnderLock_aqrel, writesUnderLock_writes]
  · unfold broadcastTr
    show writesUnderLock 0 (Ev.acquire :: Ev.release ::
      (broadcastSystem text st).map fun p => Ev.write p.1 p.2) = []
    rw [writesUnderLock_aqrel, writesUnderLock_writes]
  · rfl
  · unfold groupCreateTr
    by_cases hg : hasGroup st g = true
    · rw [if_pos hg, if_pos hg]
      rfl
    · rw [if_neg hg, if_neg hg]
      rfl
  · unfold groupJoinTr
    by_cases hg : hasGroup st g = true
    · rw [if_pos hg, if_pos hg]
      rfl
    · rw [if_neg hg, if_neg hg]
      rfl
  · unfold groupLeaveTr
    by_cases hm : n ∈ membersOf st g
    · rw [if_pos hm, if_pos hm]
      rfl
    · rw [if_neg hm, if_neg hm]
      rfl
  · unfold listGroupsTr
    by_cases hg : st.groups = []
    · rw [if_pos hg, if_pos hg]
      rfl
    · rw [if_neg hg, if_neg hg]
      show writesUnderLock 0 (Ev.acquire :: Ev.release ::
        (listGroups conn st).map fun p => Ev.write p.1 p.2) = []
      rw [writesUnderLock_aqrel, writesUnderLock_writes]
  · simp only [negotiateTr]
    by_cases h1 : pyLower (pyStrip line) = str "/quit"
    · rw [if_pos h1, if_neg (by simp [h1])]
      rfl
    · rw [if_neg h1]
      by_cases h2 : validNick (pyStrip line) = true
      · rw [if_neg (by rw [h2]; simp)]
        by_cases h3 : (lookupClient st (pyStrip line)).isSome = true
        · rw [if_pos h3, if_pos ⟨h1, h2, h3⟩]
          rfl
        · rw [if_neg h3, if_neg (by intro hc; exact h3 hc.2.2)]
          rfl
      · rw [Bool.not_eq_true] at h2
        rw [if_pos (by rw [h2]; rfl),
          if_neg (by intro hc; rw [h2] at hc; exact absurd hc.2.1 (by simp))]
        rfl

theorem lock_write_discipline_witness :
    writesUnderLock 0 (groupSendTr (str "A") (str "team") (str "hi") 0 stW) =
      [] :=
  (lock_write_discipline stW (str "n") (str "team") (str "A") (str "B")
    (str "hi") (str "x") 0).2.1

/-! ## Group send and private send -/

/-- Claim C1: group send never mutates the registries; when the
sender is in the point-in-time member snapshot it delivers the group
line to every other snapshot member with a session (each output line is
either such a delivery or the self-echo, so members without a session
are silently skipped and nobody else receives anything) and sends the
self-echo to the sender; when the sender is not in the snapshot
(including a missing group) the sender receives exactly one error line
and no other connection receives anything. -/
theorem groupSend_spec (st : ServerState) (s g m : Str) (conn : ConnId) :
    (groupSend s g m conn st).1 = st ∧
    (s ∉ memberSnapshot st g →
      (groupSend s g m conn st).2 = [(conn, mustJoinMsg)]) ∧
    (s ∈ memberSnapshot st g →
      (conn, selfEchoLine g m) ∈ (groupSend s g m conn st).2 ∧
      (∀ mem ∈ memberSnapshot st g, mem ≠ s → ∀ rc,
        lookupClient st mem = some rc →
        (rc, groupLine g s m) ∈ (groupSend s g m conn st).2) ∧
      (∀ p ∈ (groupSend s g m conn st).2,
        p = (conn, selfEchoLine g m) ∨
        ∃ mem ∈ memberSnapshot st g, mem ≠ s ∧
          lookupClient st mem = some p.1 ∧ p.2 = groupLine g s m)) := by
  simp only [groupSend]
  by_cases hs : s ∈ memberSnapshot st g
  · rw [if_pos hs]
    refine ⟨rfl, fun h => absurd hs h, fun _ => ⟨?_, ?_, ?_⟩⟩
    · exact List.mem_append_right _ (List.Mem.head _)
    · intro mem hmem hne rc hrc
      apply List.mem_append_left
      apply List.mem_filterMap.mpr
      refine ⟨mem, hmem, ?_⟩
      rw [if_neg hne, hrc]
    · intro p hp
      rcases List.mem_append.mp hp with hp | hp
      · right
        obtain ⟨mem, hmem, hf⟩ := List.mem_filterMap.mp hp
        by_cases hms : mem = s
        · rw [if_pos hms] at hf
          exact absurd hf (by simp)
        · rw [if_neg hms] at hf
          cases hlk : lookupClient st mem with
          | none =>
            rw [hlk] at hf
            exact absurd hf (by simp)
          | some rc =>
            rw [hlk] at hf
            injection hf with hf
            subst hf
            exact ⟨mem, hmem, hms, hlk, rfl⟩
      · left
        simpa using hp
  · rw [if_neg hs]
    exact ⟨rfl, fun _ => rfl, fun h => absurd h hs⟩

theorem groupSend_spec_witness :
    (1, groupLine (str "team") (str "A") (str "hello")) ∈
      (groupSend (str "A") (str "team") (str "hello") 0 stW).2 :=
  ((groupSend_spec stW (str "A") (str "team") (str "hello") 0).2.2
    (by decide)).2.1 (str "B") (by decide) (by decide) 1 (by decide)

/-- Claim C8: a private message to a target with no session produces
exactly one line, the offline error to the sender, delivers nothing to
anyone else and mutates neither registry; and a /msg command never
closes the sender connection (the dispatcher returns should-close =
false), so the connection stays open for further commands. -/
theorem sendPrivate_offline_spec (st : ServerState) (s t text raw : Str)
    (conn : ConnId) :
    (lookupClient st t = none →
      sendPrivate s t text conn st = (st, [(conn, notOnlineMsg t)])) ∧
    ((pySplit (pyStrip raw)).head?.map pyLower = some (str "/msg") →
      (processCommand s raw conn st).1 = false) := by
  constructor
  · intro h
    unfold sendPrivate
    rw [h]
  · intro h
    cases htk : pySplit (pyStrip raw) with
    | nil =>
      rw [htk] at h
      exact absurd h (by simp)
    | cons cmd0 rest =>
      rw [htk] at h
      rw [List.head?_cons, Option.map_some'] at h
      injection h with h
      simp only [processCommand, htk, h]
      rw [if_true]
      cases rest with
      | nil => rfl
      | cons a tl =>
        cases tl with
        | nil => rfl
        | cons b tl2 => rfl

theorem sendPrivate_offline_spec_witness :
    sendPrivate (str "A") (str "D") (str "hi") 0 stW =
      (stW, [(0, notOnlineMsg (str "D"))]) :=
  (sendPrivate_offline_spec stW (str "A") (str "D") (str "hi")
    (str "/msg D hi") 0).1 (by decide)
